import Mathlib

namespace PhotoBot

/-!
Verification of the photo-discord-bot download-and-upload pipeline
(`main.py`): name sanitization, retry/backoff engine, folder-resolution
cache, HEIC transcoding fallback, and the capacity-aware video routing.

Strings from the Python code are embedded as `List Char`; machine time is
modelled in whole seconds as `Nat`; the remote Google Drive backend and the
HTTP layer are modelled by explicit outcome parameters (`Except`).
-/

/-! ### Name sanitizer (`sanitize_folder_name`, main.py lines 159-169) -/

/-- Characters matched by `SANITIZE_BAD_CHARS_RE = r'[<>:"/\\|?*]'`. -/
def badChar (c : Char) : Bool :=
  c = '<' || c = '>' || c = ':' || c = '"' || c = '/' || c = '\\' ||
    c = '|' || c = '?' || c = '*'

/-- Embedding of `SANITIZE_BAD_CHARS_RE.sub("_", name)`: each bad character becomes one
underscore. -/
def subBadChars (l : List Char) : List Char :=
  l.map (fun c => if badChar c then '_' else c)

/-- Scanner for `SANITIZE_PATH_TRAVERSAL_RE.sub("_", name)` with pattern
`\.\.+` (leftmost match, greedy): state 0 = normal, state 1 = one pending
dot seen, state 2 (and above) = inside a run of two or more dots that will
be emitted as a single underscore once the run ends. -/
def subTravGo : Nat → List Char → List Char
  | 0, [] => []
  | 1, [] => ['.']
  | _ + 2, [] => ['_']
  | 0, c :: rest => if c = '.' then subTravGo 1 rest else c :: subTravGo 0 rest
  | 1, c :: rest =>
    if c = '.' then subTravGo 2 rest else '.' :: c :: subTravGo 0 rest
  | _ + 2, c :: rest =>
    if c = '.' then subTravGo 2 rest else '_' :: c :: subTravGo 0 rest

/-- Embedding of `SANITIZE_PATH_TRAVERSAL_RE.sub("_", name)`: each maximal run of two or
more consecutive dots is replaced by a single underscore; isolated dots are
kept. -/
def subTraversal (l : List Char) : List Char := subTravGo 0 l

/-- Characters stripped from both ends by `name.strip(". ")`. -/
def stripChar (c : Char) : Bool := c = '.' || c = ' '

/-- Embedding of `name.strip(". ")`: drop leading and trailing dots and spaces. -/
def stripDotsSpaces (l : List Char) : List Char :=
  ((l.dropWhile stripChar).reverse.dropWhile stripChar).reverse

/-- The fallback name `"unnamed"`. -/
def unnamedName : List Char := ['u', 'n', 'n', 'a', 'm', 'e', 'd']

/-- Embedding of `sanitize_folder_name` (main.py 159-169): empty input maps to
`"unnamed"`; otherwise substitute bad characters, collapse dot runs, strip
leading/trailing dots and spaces, truncate to 255 characters, and map a
now-empty result to `"unnamed"`. -/
def sanitize_folder_name (l : List Char) : List Char :=
  if l = [] then unnamedName
  else if (stripDotsSpaces (subTraversal (subBadChars l))).take 255 = [] then
    unnamedName
  else (stripDotsSpaces (subTraversal (subBadChars l))).take 255

/-! ### No-double-dot invariant of the traversal substitution -/

/-- Predicate `noDD l` holding when `l` contains no occurrence of `".."` (no two
adjacent dots). -/
def noDD : List Char → Bool
  | [] => true
  | [_] => true
  | c :: d :: rest => !(c = '.' && d = '.') && noDD (d :: rest)

/-! ### Backoff/retry engine (`retry_with_backoff`, main.py 214-242, and
`exponential_backoff_sleep`, main.py 204-211)

An operation is modelled as a map from the zero-based attempt index to that
attempt's outcome.  `exponential_backoff_sleep attempt` sleeps
`base_delay * multiplier ** attempt`; `retry_with_backoff` calls it with its
defaults, so `base` is the fixed `1.0` default and `mult` the process-wide
`RETRY_BACKOFF_MULTIPLIER`; both are constant across one retry loop and are
kept as parameters here.  Delays are recorded symbolically as rationals. -/

/-- Default of `MAX_RETRIES = int(getenv("MAX_RETRIES", 3))` (main.py 64). -/
def MAX_RETRIES : Nat := 3

/-- Default of `RETRY_BACKOFF_MULTIPLIER = float(getenv(..., 2.5))`
(main.py 65). -/
def RETRY_BACKOFF_MULTIPLIER : ℚ := 5 / 2

/-- Outcome of one `retry_with_backoff` call: a returned value, a raised
error, or the `return None` fall-through when `max_retries = 0`. -/
inductive ROutcome (ε α : Type) where
  | ok (a : α)
  | raised (e : ε)
  | noAttempt
deriving DecidableEq

/-- Observable trace of one `retry_with_backoff` call: final outcome, how
many times the wrapped operation was invoked, and the list of sleep delays
in order. -/
structure RetryTrace (ε α : Type) where
  outcome : ROutcome ε α
  invocations : Nat
  sleeps : List ℚ
deriving DecidableEq

/-- The `for attempt in range(max_retries)` loop of `retry_with_backoff`:
`attempt` is the current zero-based index, the second argument the number of
loop iterations left.  A success returns at once; a permanent error
(classifier false) re-raises at once; a transient error sleeps
`base * mult ^ attempt` and continues unless this was the final attempt, in
which case the loop ends and the last error is re-raised. -/
def retryLoop (op : Nat → Except ε α) (tr : ε → Bool) (base mult : ℚ) :
    Nat → Nat → RetryTrace ε α
  | _, 0 => ⟨.noAttempt, 0, []⟩
  | attempt, r + 1 =>
    match op attempt with
    | .ok a => ⟨.ok a, 1, []⟩
    | .error e =>
      if tr e then
        if 0 < r then
          let t := retryLoop op tr base mult (attempt + 1) r
          ⟨t.outcome, t.invocations + 1, base * mult ^ attempt :: t.sleeps⟩
        else ⟨.raised e, 1, []⟩
      else ⟨.raised e, 1, []⟩

/-- Embedding of `retry_with_backoff(func, max_retries=max_retries)` with the transient
classifier `tr` (the code uses `is_transient_error`). -/
def retry_with_backoff (op : Nat → Except ε α) (tr : ε → Bool)
    (max_retries : Nat) (base mult : ℚ) : RetryTrace ε α :=
  retryLoop op tr base mult 0 max_retries

/-! ### Error classification (`is_transient_error`, main.py 172-201) -/

/-- A Python exception as `is_transient_error` observes it: the lower-cased
`str(exception)`, the type name `type(exception).__name__`, and
`exception.response.status_code` when both attributes exist. -/
structure PyExc where
  text : List Char
  typeName : List Char
  responseStatus : Option Nat
deriving DecidableEq

/-- Substring test (Python `in` on strings). -/
def hasSub (needle hay : List Char) : Bool := decide (needle <:+: hay)

/-- Embedding of `is_transient_error`: network keywords, HTTP-style codes in the message,
a 5xx/429 `.response.status_code`, or a Google-API-looking type name with a
429/500/503 message. -/
def is_transient_error (e : PyExc) : Bool :=
  (hasSub "connection".toList e.text || hasSub "timeout".toList e.text ||
      hasSub "network".toList e.text || hasSub "temporary".toList e.text) ||
    (hasSub "http".toList e.text &&
      (hasSub "429".toList e.text || hasSub "500".toList e.text ||
        hasSub "502".toList e.text || hasSub "503".toList e.text ||
        hasSub "504".toList e.text)) ||
    (match e.responseStatus with
      | some s => decide (500 ≤ s) || decide (s = 429)
      | none => false) ||
    ((hasSub "googleapiclient".toList e.typeName ||
        hasSub "HttpError".toList e.typeName) &&
      (hasSub "429".toList e.text || hasSub "500".toList e.text ||
        hasSub "503".toList e.text))

/-! ### Decimal rendering of `str(int)` for embedded exception messages -/

def digitChar : Nat → Char
  | 0 => '0'
  | 1 => '1'
  | 2 => '2'
  | 3 => '3'
  | 4 => '4'
  | 5 => '5'
  | 6 => '6'
  | 7 => '7'
  | 8 => '8'
  | _ => '9'

def digitChars : List Char := ['0', '1', '2', '3', '4', '5', '6', '7', '8', '9']

/-- Fuel-based decimal printer (`str(n)` for a nonnegative int). -/
def natToCharsGo : Nat → Nat → List Char
  | 0, _ => []
  | fuel + 1, n =>
    if n < 10 then [digitChar n]
    else natToCharsGo fuel (n / 10) ++ [digitChar (n % 10)]

def natToChars (n : Nat) : List Char := natToCharsGo (n + 1) n

/-! ### The image pipeline (`convert_to_jpeg`, `download_image`,
main.py 420-447 and 512-565) -/

/-- The message of the size-limit exception of `_download_image`
(main.py 534-537), as observed through `str(e).lower()`:
`"file size {n} exceeds limit {m}"`. -/
def oversize_text (size limit : Nat) : List Char :=
  "file size ".toList ++ natToChars size ++ " exceeds limit ".toList ++
    natToChars limit

/-- The size-limit exception itself: a bare Python `Exception` with no
`response` attribute. -/
def oversize_exc (size limit : Nat) : PyExc :=
  ⟨oversize_text size limit, "Exception".toList, none⟩

/-- Embedding of `file_name.replace("heic", "jpeg")`: every occurrence of the literal
`"heic"` is replaced, left to right, non-overlapping (main.py 440). -/
def replace_heic : List Char → List Char
  | 'h' :: 'e' :: 'i' :: 'c' :: rest => 'j' :: 'p' :: 'e' :: 'g' :: replace_heic rest
  | c :: rest => c :: replace_heic rest
  | [] => []

/-- Embedding of `convert_to_jpeg` (main.py 420-447): on a successful decode/re-encode
the new bytes, the name with `"heic"` replaced by `"jpeg"`, and extension
`"jpeg"` are returned; on any failure the original triple is returned
unchanged and nothing is raised.  `decodeResult` is the outcome of the
pyheif read + Pillow re-encode steps. -/
def convert_to_jpeg (image_data : List Nat) (file_name extension : List Char)
    (decodeResult : Except PyExc (List Nat)) :
    List Nat × List Char × List Char :=
  match decodeResult with
  | .ok newData => (newData, replace_heic file_name, "jpeg".toList)
  | .error _ => (image_data, file_name, extension)

/-- One attempt of `_download_image` (main.py 521-558): a non-200 GET
raises `httpExc`; an oversized payload raises the oversize exception; a
`heic`/`heif` extension runs `convert_to_jpeg`; the bytes are then handed
to `upload` as an in-memory stream.  On upload success the attempt yields
the (file name, extension) pair passed to `upload`. -/
def download_image_attempt (status : Nat) (payload : List Nat)
    (maxFileSizeBytes : Nat) (file_name extension : List Char)
    (decodeResult : Except PyExc (List Nat)) (httpExc uploadExc : PyExc)
    (uploadOk : Bool) : Except PyExc (List Char × List Char) :=
  if status ≠ 200 then .error httpExc
  else if 0 < maxFileSizeBytes ∧ maxFileSizeBytes < payload.length then
    .error (oversize_exc payload.length maxFileSizeBytes)
  else
    let conv :=
      if extension = "heic".toList ∨ extension = "heif".toList then
        convert_to_jpeg payload file_name extension decodeResult
      else (payload, file_name, extension)
    if uploadOk then .ok (conv.2.1, conv.2.2) else .error uploadExc

/-! ### The video pipeline (`get_file_size`, `is_memory_available`,
`download_video`, main.py 245-282 and 568-665) -/

/-- Embedding of `get_file_size` (main.py 245-267): `None` unless the HEAD request has
status 200 and a Content-Length header; also `None` when a size limit is
configured and the length exceeds it. -/
def get_file_size (status : Nat) (contentLength : Option Nat)
    (maxFileSizeBytes : Nat) : Option Nat :=
  if status = 200 then
    match contentLength with
    | some n =>
      if 0 < maxFileSizeBytes ∧ maxFileSizeBytes < n then none else some n
    | none => none
  else none

/-- Python `int(...)` truncation toward zero, on a rational: since the
denominator is positive, truncating division of numerator by denominator. -/
def pyInt (q : ℚ) : ℤ := q.num.tdiv q.den

/-- Embedding of `is_memory_available` (main.py 270-282): reserve a percentage of
available memory; the check is strict (`usable_memory > file_size`). -/
def is_memory_available (availableMemory : Nat) (reservePercent : ℚ)
    (file_size : Nat) : Bool :=
  decide ((file_size : ℤ) <
    (availableMemory : ℤ) - pyInt ((availableMemory : ℚ) * (reservePercent / 100)))

/-- Python truthiness of `file_size : int | None` in
`if VIDEO_IN_MEMORY and file_size and is_memory_available(file_size)`. -/
def truthySize : Option Nat → Bool
  | none => false
  | some n => n != 0

/-- The `upload` call as observed by the video pipeline: whether a
non-None in-memory stream was passed, and the `file_path` argument. -/
structure UploadCall where
  hasStream : Bool
  path : Option (List Char)
deriving DecidableEq

/-- Observable behaviour of one `_download_video` attempt: the upload call
made (if any), how many times the temp file was unlinked, and whether the
attempt raised. -/
structure VideoRun where
  uploadCall : Option UploadCall
  unlinkCount : Nat
  raised : Bool
deriving DecidableEq

/-- One attempt of `_download_video` (main.py 574-658) given the
`get_file_size` outcome, the GET status and the upload outcome: a non-200
status raises before any upload; with in-memory video enabled, a truthy
file size and available memory, the stream is buffered in memory and
uploaded with no path; otherwise the stream is spooled to a fresh temp
file whose path is passed to `upload`, and the `try/finally` unlinks that
file exactly once whether or not the upload raises. -/
def download_video_attempt (videoInMemory : Bool) (fileSize : Option Nat)
    (availableMemory : Nat) (reservePercent : ℚ) (status : Nat)
    (uploadOk : Bool) (tempPath : List Char) : VideoRun :=
  if status ≠ 200 then ⟨none, 0, true⟩
  else if videoInMemory && truthySize fileSize &&
      is_memory_available availableMemory reservePercent (fileSize.getD 0) then
    ⟨some ⟨true, none⟩, 0, !uploadOk⟩
  else ⟨some ⟨false, some tempPath⟩, 1, !uploadOk⟩

/-- Embedding of `_download_video` composed with the `get_file_size` call it makes
first (main.py 576). -/
def download_video (videoInMemory : Bool) (headStatus : Nat)
    (contentLength : Option Nat) (maxFileSizeBytes availableMemory : Nat)
    (reservePercent : ℚ) (getStatus : Nat) (uploadOk : Bool)
    (tempPath : List Char) : VideoRun :=
  download_video_attempt videoInMemory
    (get_file_size headStatus contentLength maxFileSizeBytes)
    availableMemory reservePercent getStatus uploadOk tempPath

/-! ### Folder-resolution cache (`folder_cache`, `check_folder_exists`,
`create_folder`, main.py 129-131 and 318-417)

The cache `dict[str, tuple[str, datetime]]` is an association list with
unique keys; timestamps are whole seconds.  All cache access in the code
happens under `cache_lock`, so one call sees a consistent snapshot and the
sequential model below is faithful per call. -/

/-- Value of `CACHE_TTL = timedelta(hours=1)`, in seconds. -/
def CACHE_TTL : Nat := 3600

/-- Lookup `folder_cache[name]`. -/
def cacheLookup : List (List Char × List Char × Nat) → List Char →
    Option (List Char × Nat)
  | [], _ => none
  | (k, v) :: rest, n => if k = n then some v else cacheLookup rest n

/-- Deletion `del folder_cache[name]`. -/
def cacheErase : List (List Char × List Char × Nat) → List Char →
    List (List Char × List Char × Nat)
  | [], _ => []
  | (k, v) :: rest, n =>
    if k = n then cacheErase rest n else (k, v) :: cacheErase rest n

/-- Assignment `folder_cache[name] = (folder_id, now)` (adds or fully replaces). -/
def cacheInsert (c : List (List Char × List Char × Nat)) (n fid : List Char)
    (t : Nat) : List (List Char × List Char × Nat) :=
  (n, fid, t) :: cacheErase c n

/-- Result of one `check_folder_exists` call: the returned id (`None` on
any failure), the cache afterwards, and how many retry-wrapped remote list
queries were issued. -/
structure ResolveResult where
  result : Option (List Char)
  cache : List (List Char × List Char × Nat)
  remoteQueries : Nat
deriving DecidableEq

/-- The part of `check_folder_exists` after the cache check (main.py
334-372): a missing service raises, is caught, and returns `None` with no
query; otherwise exactly one retry-wrapped list query is issued whose
raised error is caught to `None`, an empty `files` list is a miss
(`None`), and the first hit is cached under the current time.  `search` is
the outcome of the retry-wrapped `_search_folder` as the id list of the
response's `files` field. -/
def check_folder_query (svc : Bool)
    (search : Except PyExc (List (List Char))) (now : Nat)
    (c : List (List Char × List Char × Nat)) (nm : List Char) :
    ResolveResult :=
  if svc then
    match search with
    | .error _ => ⟨none, c, 1⟩
    | .ok [] => ⟨none, c, 1⟩
    | .ok (fid :: _) => ⟨some fid, cacheInsert c nm fid now, 1⟩
  else ⟨none, c, 0⟩

/-- Embedding of `check_folder_exists` (main.py 318-372): sanitize the name; under the
lock, a cache entry strictly younger than the TTL is returned with no
remote call; an expired entry is deleted; in either remaining case the
remote query runs. -/
def check_folder_exists (svc : Bool)
    (search : Except PyExc (List (List Char))) (now : Nat)
    (cache : List (List Char × List Char × Nat)) (raw : List Char) :
    ResolveResult :=
  match cacheLookup cache (sanitize_folder_name raw) with
  | some (fid, t) =>
    if now - t < CACHE_TTL then ⟨some fid, cache, 0⟩
    else
      check_folder_query svc search now
        (cacheErase cache (sanitize_folder_name raw))
        (sanitize_folder_name raw)
  | none => check_folder_query svc search now cache (sanitize_folder_name raw)

/-- Embedding of `create_folder` (main.py 375-417): sanitize; a missing service or a
raised create error is caught and `None` returned; a falsy response is
`None` without caching; a created folder is cached under the current time
and its id returned. -/
def create_folder (svc : Bool)
    (createResult : Except PyExc (Option (List Char))) (now : Nat)
    (cache : List (List Char × List Char × Nat)) (raw : List Char) :
    Option (List Char) × List (List Char × List Char × Nat) :=
  if svc then
    match createResult with
    | .error _ => (none, cache)
    | .ok none => (none, cache)
    | .ok (some fid) =>
      (some fid, cacheInsert cache (sanitize_folder_name raw) fid now)
  else (none, cache)

/-! ### Idempotence of the sanitizer -/

/-! ### Properties and claim theorems -/

theorem noDD_of_cons (c : Char) (l : List Char) (h : noDD (c :: l) = true) :
    noDD l = true := by
  cases l with
  | nil => rfl
  | cons d rest =>
    simp only [noDD, Bool.and_eq_true] at h
    exact h.2

theorem noDD_cons_of (c : Char) (l : List Char) (h : noDD l = true)
    (hc : c ≠ '.' ∨ l.head? ≠ some '.') : noDD (c :: l) = true := by
  cases l with
  | nil => rfl
  | cons d rest =>
    simp only [noDD, Bool.and_eq_true, Bool.not_eq_true', Bool.and_eq_false_iff]
    refine ⟨?_, h⟩
    rcases hc with hc | hc
    · exact Or.inl (decide_eq_false hc)
    · have hd : d ≠ '.' := by simpa using hc
      exact Or.inr (decide_eq_false hd)

theorem noDD_append_right (a b : List Char) (h : noDD (a ++ b) = true) :
    noDD b = true := by
  induction a with
  | nil => simpa using h
  | cons c a ih =>
    exact ih (noDD_of_cons c _ (by simpa using h))

theorem noDD_append_left (a b : List Char) (h : noDD (a ++ b) = true) :
    noDD a = true := by
  induction a with
  | nil => rfl
  | cons c a ih =>
    have h0 : noDD (c :: (a ++ b)) = true := by simpa using h
    have ha : noDD a = true := ih (noDD_of_cons c _ h0)
    cases a with
    | nil => rfl
    | cons d rest =>
      simp only [List.cons_append, noDD, Bool.and_eq_true] at h0 ⊢
      exact ⟨h0.1, ha⟩

theorem noDD_infix_of (l m : List Char) (h : m <:+: l) (hl : noDD l = true) :
    noDD m = true := by
  obtain ⟨s, t, hst⟩ := h
  subst hst
  have h1 : noDD (m ++ t) = true := by
    apply noDD_append_right s
    simpa [List.append_assoc] using hl
  exact noDD_append_left m t h1

theorem noDD_subTravGo (l : List Char) : ∀ st, noDD (subTravGo st l) = true := by
  induction l with
  | nil =>
    intro st
    match st with
    | 0 => rfl
    | 1 => rfl
    | _ + 2 => rfl
  | cons c rest ih =>
    intro st
    match st with
    | 0 =>
      by_cases h : c = '.'
      · simpa [subTravGo, h] using ih 1
      · simp only [subTravGo, if_neg h]
        exact noDD_cons_of c _ (ih 0) (Or.inl h)
    | 1 =>
      by_cases h : c = '.'
      · simpa [subTravGo, h] using ih 2
      · simp only [subTravGo, if_neg h]
        refine noDD_cons_of _ _ (noDD_cons_of c _ (ih 0) (Or.inl h)) ?_
        right
        simp [h]
    | n + 2 =>
      by_cases h : c = '.'
      · simpa [subTravGo, h] using ih 2
      · simp only [subTravGo, if_neg h]
        refine noDD_cons_of _ _ (noDD_cons_of c _ (ih 0) (Or.inl h)) ?_
        right
        simp [h]

theorem noDD_subTraversal (l : List Char) : noDD (subTraversal l) = true :=
  noDD_subTravGo l 0

/-- The sanitized output (non-`"unnamed"` branch) is a contiguous part of
the traversal-substituted string. -/
theorem sanitize_contiguous (l : List Char) :
    (stripDotsSpaces (subTraversal (subBadChars l))).take 255 <:+:
      subTraversal (subBadChars l) := by
  set z := subTraversal (subBadChars l) with hz
  have hA : z.dropWhile stripChar <:+ z := List.dropWhile_suffix stripChar
  have hB : (z.dropWhile stripChar).reverse.dropWhile stripChar <:+
      (z.dropWhile stripChar).reverse := List.dropWhile_suffix stripChar
  have hBrev : stripDotsSpaces z <+: z.dropWhile stripChar := by
    apply List.reverse_suffix.mp
    simpa [stripDotsSpaces, List.reverse_reverse] using hB
  have htake : (stripDotsSpaces z).take 255 <+: stripDotsSpaces z :=
    List.take_prefix 255 _
  have h1 : (stripDotsSpaces z).take 255 <+: z.dropWhile stripChar :=
    htake.trans hBrev
  exact h1.isInfix.trans hA.isInfix

theorem noDD_sanitize (l : List Char) :
    noDD (sanitize_folder_name l) = true := by
  unfold sanitize_folder_name
  by_cases h : l = []
  · simp only [if_pos h]
    decide
  · simp only [if_neg h]
    by_cases h2 : (stripDotsSpaces (subTraversal (subBadChars l))).take 255 = []
    · simp only [if_pos h2]
      decide
    · simp only [if_neg h2]
      exact noDD_infix_of _ _ (sanitize_contiguous l) (noDD_subTraversal _)

/-- State 2 swallows any further dots of the current run. -/
theorem subTravGo_two_swallow (m : Nat) (rest : List Char) :
    subTravGo 2 (List.replicate m '.' ++ rest) = subTravGo 2 rest := by
  induction m with
  | zero => simp
  | succ n ih =>
    rw [List.replicate_succ, List.cons_append]
    simpa [subTravGo] using ih

/-- Leaving state 2 emits the single underscore for the whole run. -/
theorem subTravGo_two_exit (rest : List Char) (h : rest.head? ≠ some '.') :
    subTravGo 2 rest = '_' :: subTravGo 0 rest := by
  cases rest with
  | nil => rfl
  | cons c r =>
    have hc : c ≠ '.' := by simpa using h
    simp [subTravGo, hc]

theorem subTravGo_zero_dot (l : List Char) :
    subTravGo 0 ('.' :: l) = subTravGo 1 l := by
  simp [subTravGo]

theorem subTravGo_one_dot (l : List Char) :
    subTravGo 1 ('.' :: l) = subTravGo 2 l := by
  simp [subTravGo]

/-- A leading run of `k ≥ 2` dots (not followed by another dot) is replaced
by exactly one underscore. -/
theorem subTraversal_run (k : Nat) (rest : List Char) (hk : 2 ≤ k)
    (h : rest.head? ≠ some '.') :
    subTraversal (List.replicate k '.' ++ rest) = '_' :: subTraversal rest := by
  obtain ⟨m, rfl⟩ : ∃ m, k = m + 2 := ⟨k - 2, by omega⟩
  have hrepl : List.replicate (m + 2) '.' = '.' :: '.' :: List.replicate m '.' := by
    simp [List.replicate_succ]
  rw [subTraversal, hrepl, List.cons_append, List.cons_append,
    subTravGo_zero_dot, subTravGo_one_dot, subTravGo_two_swallow m rest,
    subTravGo_two_exit rest h, subTraversal]

/-- Peeling the first delay off the backoff schedule. -/
theorem delays_shift (base mult : ℚ) (a n : Nat) :
    (List.range (n + 1)).map (fun j => base * mult ^ (a + j)) =
      base * mult ^ a :: (List.range n).map (fun j => base * mult ^ (a + 1 + j)) := by
  rw [List.range_succ_eq_map, List.map_cons, List.map_map]
  refine congrArg₂ List.cons (by rw [Nat.add_zero]) ?_
  apply List.map_congr_left
  intro j _
  show base * mult ^ (a + (j + 1)) = base * mult ^ (a + 1 + j)
  rw [show a + (j + 1) = a + 1 + j from by omega]

/-- Success on the `(m+1)`-st attempt after `m` transient failures. -/
theorem retryLoop_ok (op : Nat → Except ε α) (tr : ε → Bool) (base mult : ℚ)
    (m : Nat) : ∀ a r, m < r →
    (∀ j, j < m → ∃ e, op (a + j) = .error e ∧ tr e = true) →
    ∀ v, op (a + m) = .ok v →
    retryLoop op tr base mult a r =
      ⟨.ok v, m + 1, (List.range m).map fun j => base * mult ^ (a + j)⟩ := by
  induction m with
  | zero =>
    intro a r hr hfail v hok
    obtain ⟨r', rfl⟩ : ∃ r', r = r' + 1 := ⟨r - 1, by omega⟩
    simp only [retryLoop]
    rw [show a + 0 = a from rfl] at hok
    rw [hok]
    simp
  | succ n ih =>
    intro a r hr hfail v hok
    obtain ⟨r', rfl⟩ : ∃ r', r = r' + 1 := ⟨r - 1, by omega⟩
    obtain ⟨e0, he0, htr0⟩ := hfail 0 (Nat.succ_pos n)
    rw [show a + 0 = a from rfl] at he0
    have hr' : 0 < r' := by omega
    simp only [retryLoop, he0, htr0, if_pos hr', if_true]
    have hrec := ih (a + 1) r' (by omega)
      (fun j hj => by
        obtain ⟨e, he, ht⟩ := hfail (j + 1) (by omega)
        exact ⟨e, by rwa [show a + 1 + j = a + (j + 1) from by omega], ht⟩)
      v (by rwa [show a + 1 + n = a + (n + 1) from by omega])
    rw [hrec, delays_shift]

/-- A permanent error on the `(m+1)`-st attempt after `m` transient
failures: the original error is re-raised, with no sleep after it. -/
theorem retryLoop_perm (op : Nat → Except ε α) (tr : ε → Bool) (base mult : ℚ)
    (m : Nat) : ∀ a r, m < r →
    (∀ j, j < m → ∃ e, op (a + j) = .error e ∧ tr e = true) →
    ∀ e, op (a + m) = .error e → tr e = false →
    retryLoop op tr base mult a r =
      ⟨.raised e, m + 1, (List.range m).map fun j => base * mult ^ (a + j)⟩ := by
  induction m with
  | zero =>
    intro a r hr hfail e herr htr
    obtain ⟨r', rfl⟩ : ∃ r', r = r' + 1 := ⟨r - 1, by omega⟩
    rw [show a + 0 = a from rfl] at herr
    simp only [retryLoop, herr, htr]
    simp
  | succ n ih =>
    intro a r hr hfail e herr htr
    obtain ⟨r', rfl⟩ : ∃ r', r = r' + 1 := ⟨r - 1, by omega⟩
    obtain ⟨e0, he0, htr0⟩ := hfail 0 (Nat.succ_pos n)
    rw [show a + 0 = a from rfl] at he0
    have hr' : 0 < r' := by omega
    simp only [retryLoop, he0, htr0, if_pos hr', if_true]
    have hrec := ih (a + 1) r' (by omega)
      (fun j hj => by
        obtain ⟨e', he', ht⟩ := hfail (j + 1) (by omega)
        exact ⟨e', by rwa [show a + 1 + j = a + (j + 1) from by omega], ht⟩)
      e (by rwa [show a + 1 + n = a + (n + 1) from by omega]) htr
    rw [hrec, delays_shift]

/-- All `r` attempts fail transiently: the last error is re-raised and no
sleep follows the final attempt. -/
theorem retryLoop_exhaust (op : Nat → Except ε α) (tr : ε → Bool)
    (base mult : ℚ) (err : Nat → ε) :
    ∀ a r, 0 < r →
    (∀ j, j < r → op (a + j) = .error (err (a + j)) ∧ tr (err (a + j)) = true) →
    retryLoop op tr base mult a r =
      ⟨.raised (err (a + (r - 1))), r,
        (List.range (r - 1)).map fun j => base * mult ^ (a + j)⟩ := by
  intro a r
  induction r generalizing a with
  | zero => omega
  | succ r' ih =>
    intro _ hfail
    obtain ⟨he0, htr0⟩ := hfail 0 (Nat.succ_pos r')
    rw [show a + 0 = a from rfl] at he0 htr0
    by_cases hr' : 0 < r'
    · simp only [retryLoop, he0, htr0, if_pos hr', if_true]
      have hrec := ih (a + 1) hr'
        (fun j hj => by
          have := hfail (j + 1) (by omega)
          rwa [show a + (j + 1) = a + 1 + j from by omega] at this)
      rw [hrec]
      have hidx : a + 1 + (r' - 1) = a + (r' + 1 - 1) := by omega
      rw [hidx]
      have hdel : (List.range (r' + 1 - 1)).map (fun j => base * mult ^ (a + j)) =
          base * mult ^ a :: (List.range (r' - 1)).map
            (fun j => base * mult ^ (a + 1 + j)) := by
        obtain ⟨n, rfl⟩ : ∃ n, r' = n + 1 := ⟨r' - 1, by omega⟩
        simpa using delays_shift base mult a n
      rw [hdel]
    · have hr0 : r' = 0 := by omega
      subst hr0
      simp only [retryLoop, he0, htr0, if_neg (lt_irrefl 0), if_true]
      simp

/-- A needle containing a character that does not occur in the hay is not a
substring of it. -/
theorem hasSub_eq_false (needle hay : List Char) (c : Char)
    (hc : c ∈ needle) (hh : c ∉ hay) : hasSub needle hay = false := by
  rw [hasSub, decide_eq_false_iff_not]
  intro hinf
  exact hh (hinf.subset hc)

/-- C1: For every operation run under `retry_with_backoff` with bound
`maxR`, base delay `base` and multiplier `mult`: a permanent error on
attempt `i` (after `i` transient failures) gives exactly `i + 1`
invocations, re-raises that same error, and sleeps only the `i` delays of
the earlier transient failures (none after the permanent error); transient
failures followed by a success on attempt `k` give exactly `k` invocations
and `k - 1` sleeps with delays `base * mult ^ 0, ..., base * mult ^ (k-2)`;
`maxR` transient failures give `maxR` invocations, re-raise the last error,
and sleep only `maxR - 1` times (no sleep after the final attempt). -/
theorem retry_engine_contract (ε α : Type) (op : Nat → Except ε α)
    (tr : ε → Bool) (maxR : Nat) (base mult : ℚ) :
    (∀ i e, i < maxR →
      (∀ j, j < i → ∃ e', op j = .error e' ∧ tr e' = true) →
      op i = .error e → tr e = false →
      retry_with_backoff op tr maxR base mult =
        ⟨.raised e, i + 1, (List.range i).map fun j => base * mult ^ j⟩) ∧
    (∀ k v, 0 < k → k ≤ maxR →
      (∀ j, j < k - 1 → ∃ e', op j = .error e' ∧ tr e' = true) →
      op (k - 1) = .ok v →
      retry_with_backoff op tr maxR base mult =
        ⟨.ok v, k, (List.range (k - 1)).map fun j => base * mult ^ j⟩) ∧
    (∀ err : Nat → ε, 0 < maxR →
      (∀ j, j < maxR → op j = .error (err j) ∧ tr (err j) = true) →
      retry_with_backoff op tr maxR base mult =
        ⟨.raised (err (maxR - 1)), maxR,
          (List.range (maxR - 1)).map fun j => base * mult ^ j⟩) := by
  refine ⟨?_, ?_, ?_⟩
  · intro i e hi hfail herr htr
    have h := retryLoop_perm op tr base mult i 0 maxR hi
      (fun j hj => by simpa using hfail j hj) e (by simpa using herr) htr
    rw [retry_with_backoff, h]
    simp
  · intro k v hk hkR hfail hok
    have h := retryLoop_ok op tr base mult (k - 1) 0 maxR (by omega)
      (fun j hj => by simpa using hfail j hj) v (by simpa using hok)
    rw [retry_with_backoff, h]
    have : k - 1 + 1 = k := by omega
    rw [this]
    simp
  · intro err hR hfail
    have h := retryLoop_exhaust op tr base mult err 0 maxR hR
      (fun j hj => by simpa using hfail j hj)
    rw [retry_with_backoff, h]
    simp

/-- Witness for C1: three concrete retry traces (permanent error on the
first attempt; two transient failures then success; three transient
failures) with `maxR = 3`, `base = 1`, `mult = 2`. -/
theorem retry_engine_contract_witness :
    retry_with_backoff (fun _ => (.error false : Except Bool Nat))
        (fun b => b) 3 1 2 = ⟨.raised false, 1, []⟩ ∧
    retry_with_backoff (fun i => if i < 2 then .error true else .ok 7)
        (fun b => b) 3 1 2 =
      ⟨.ok 7, 3, (List.range 2).map fun j => (1 : ℚ) * 2 ^ j⟩ ∧
    retry_with_backoff (fun _ => (.error true : Except Bool Nat))
        (fun b => b) 3 1 2 =
      ⟨.raised true, 3, (List.range 2).map fun j => (1 : ℚ) * 2 ^ j⟩ := by
  refine ⟨?_, ?_, ?_⟩
  · exact (retry_engine_contract Bool Nat _ _ 3 1 2).1 0 false (by omega)
      (fun j hj => absurd hj (by omega)) rfl rfl
  · have h := (retry_engine_contract Bool Nat
      (fun i => if i < 2 then .error true else .ok 7) (fun b => b) 3 1 2).2.1
      3 7 (by omega) (by omega)
      (fun j hj => ⟨true, by
        have hj2 : j < 2 := by omega
        simp [hj2], rfl⟩)
      (by simp)
    simpa using h
  · have h := (retry_engine_contract Bool Nat (fun _ => .error true)
      (fun b => b) 3 1 2).2.2 (fun _ => true) (by omega)
      (fun _ _ => ⟨rfl, rfl⟩)
    simpa using h

theorem digitChar_mem (d : Nat) : digitChar d ∈ digitChars := by
  match d with
  | 0 => decide
  | 1 => decide
  | 2 => decide
  | 3 => decide
  | 4 => decide
  | 5 => decide
  | 6 => decide
  | 7 => decide
  | 8 => decide
  | n + 9 => exact (by decide : '9' ∈ digitChars)

theorem natToCharsGo_digits (fuel : Nat) :
    ∀ n c, c ∈ natToCharsGo fuel n → c ∈ digitChars := by
  induction fuel with
  | zero =>
    intro n c h
    simp [natToCharsGo] at h
  | succ f ih =>
    intro n c h
    simp only [natToCharsGo] at h
    by_cases hn : n < 10
    · rw [if_pos hn] at h
      simp only [List.mem_singleton] at h
      subst h
      exact digitChar_mem n
    · rw [if_neg hn, List.mem_append] at h
      rcases h with h | h
      · exact ih _ _ h
      · simp only [List.mem_singleton] at h
        subst h
        exact digitChar_mem (n % 10)

/-- The oversize exception is always classified permanent: its message has
no network keyword and no "http", its type name is `Exception`, and it has
no `response` attribute. -/
theorem natToChars_digits (n : Nat) (c : Char) (h : c ∈ natToChars n) :
    c ∈ digitChars :=
  natToCharsGo_digits _ _ _ h

theorem oversize_permanent (size limit : Nat) :
    is_transient_error (oversize_exc size limit) = false := by
  have hmem : ∀ c : Char, c ∉ digitChars → c ∉ "file size ".toList →
      c ∉ " exceeds limit ".toList → c ∉ oversize_text size limit := by
    intro c hd hA hB hc
    rw [oversize_text] at hc
    rcases List.mem_append.mp hc with h1 | h1
    swap
    · exact hd (natToChars_digits _ _ h1)
    rcases List.mem_append.mp h1 with h2 | h2
    swap
    · exact hB h2
    rcases List.mem_append.mp h2 with h3 | h3
    · exact hA h3
    · exact hd (natToChars_digits _ _ h3)
  have h1 : hasSub "connection".toList (oversize_text size limit) = false :=
    hasSub_eq_false _ _ 'o' (by decide)
      (hmem 'o' (by decide) (by decide) (by decide))
  have h2 : hasSub "timeout".toList (oversize_text size limit) = false :=
    hasSub_eq_false _ _ 'o' (by decide)
      (hmem 'o' (by decide) (by decide) (by decide))
  have h3 : hasSub "network".toList (oversize_text size limit) = false :=
    hasSub_eq_false _ _ 'w' (by decide)
      (hmem 'w' (by decide) (by decide) (by decide))
  have h4 : hasSub "temporary".toList (oversize_text size limit) = false :=
    hasSub_eq_false _ _ 'o' (by decide)
      (hmem 'o' (by decide) (by decide) (by decide))
  have h5 : hasSub "http".toList (oversize_text size limit) = false :=
    hasSub_eq_false _ _ 'h' (by decide)
      (hmem 'h' (by decide) (by decide) (by decide))
  have h6 : hasSub "googleapiclient".toList "Exception".toList = false := by
    decide
  have h7 : hasSub "HttpError".toList "Exception".toList = false := by decide
  have htext : (oversize_exc size limit).text = oversize_text size limit := rfl
  have htype : (oversize_exc size limit).typeName = "Exception".toList := rfl
  have hresp : (oversize_exc size limit).responseStatus = none := rfl
  simp only [is_transient_error, htext, htype, hresp, h1, h2, h3, h4, h5, h6,
    h7]
  simp

/-- With a reserve percentage of 0 the memory check is simply
`file_size < available`. -/
theorem is_memory_available_zero (a s : Nat) :
    is_memory_available a 0 s = decide ((s : ℤ) < (a : ℤ)) := by
  have h0 : ((a : ℚ)) * ((0 : ℚ) / 100) = 0 := by simp
  simp [is_memory_available, pyInt, h0]

/-- C2 counterexample: with in-memory video enabled, a content length of 0
obtained from `get_file_size`, and usable memory (1000 bytes, no reserve)
exceeding that length, the code still takes the disk path:
`if VIDEO_IN_MEMORY and file_size and ...` treats the obtained length 0 as
false.  The claim predicts the memory-stream upload here. -/
theorem video_zero_length_counterexample :
    get_file_size 200 (some 0) 0 = some 0 ∧
    is_memory_available 1000 0 0 = true ∧
    download_video true 200 (some 0) 0 1000 0 200 true ['t'] =
      ⟨some ⟨false, some ['t']⟩, 1, false⟩ ∧
    (download_video true 200 (some 0) 0 1000 0 200 true ['t']).uploadCall ≠
      some ⟨true, none⟩ := by
  refine ⟨by decide, ?_, by decide, by decide⟩
  rw [is_memory_available_zero]
  decide

/-- C2 (amended): if in-memory video is enabled AND a content length was
obtained AND it is nonzero AND usable memory (available minus the reserve
percentage) exceeds it, `upload` is called with an in-memory stream and no
path, and no temp file is touched; in every other case of a successful GET
the stream is spooled to the temp file, `upload` is called with no stream
and that path, and the temp file is unlinked exactly once whether the
upload succeeds or fails. -/
theorem video_routing (videoInMemory : Bool) (fileSize : Option Nat)
    (availableMemory : Nat) (reservePercent : ℚ) (uploadOk : Bool)
    (tempPath : List Char) :
    (∀ L, fileSize = some L → L ≠ 0 → videoInMemory = true →
      is_memory_available availableMemory reservePercent L = true →
      download_video_attempt videoInMemory fileSize availableMemory
          reservePercent 200 uploadOk tempPath =
        ⟨some ⟨true, none⟩, 0, !uploadOk⟩) ∧
    (videoInMemory = false ∨ fileSize = none ∨ fileSize = some 0 ∨
        is_memory_available availableMemory reservePercent
          (fileSize.getD 0) = false →
      download_video_attempt videoInMemory fileSize availableMemory
          reservePercent 200 uploadOk tempPath =
        ⟨some ⟨false, some tempPath⟩, 1, !uploadOk⟩) := by
  constructor
  · intro L hL hL0 hmem hav
    subst hL
    subst hmem
    simp [download_video_attempt, truthySize, hL0, hav]
  · intro h
    rcases h with h | h | h | h
    · subst h
      simp [download_video_attempt]
    · subst h
      simp [download_video_attempt, truthySize]
    · subst h
      simp [download_video_attempt, truthySize]
    · simp [download_video_attempt, h]

/-- Witness for C2 (amended): a 50-byte video fits in the 1000 usable
bytes and is routed through memory; with in-memory handling disabled the
same video goes to disk and the temp file is unlinked exactly once even
though the upload fails. -/
theorem video_routing_witness :
    download_video_attempt true (some 50) 1000 0 200 true ['t'] =
      ⟨some ⟨true, none⟩, 0, false⟩ ∧
    download_video_attempt false (some 50) 1000 0 200 false ['t'] =
      ⟨some ⟨false, some ['t']⟩, 1, true⟩ := by
  constructor
  · exact (video_routing true (some 50) 1000 0 true ['t']).1 50 rfl
      (by decide) rfl (by rw [is_memory_available_zero]; decide)
  · exact (video_routing false (some 50) 1000 0 false ['t']).2
      (Or.inl rfl)

/-- C4 counterexample: a VIDEO fetch with a configured limit of 10 bytes
and a content length of 100 bytes does not raise: `get_file_size` returns
None, the download proceeds anyway and `upload` is called via the disk
path.  The claim says every oversized attachment fetch raises
immediately. -/
theorem video_oversize_counterexample :
    get_file_size 200 (some 100) 10 = none ∧
    download_video true 200 (some 100) 10 1000 10 200 true ['t'] =
      ⟨some ⟨false, some ['t']⟩, 1, false⟩ ∧
    (download_video true 200 (some 100) 10 1000 10 200 true ['t']).raised
      = false := by
  refine ⟨?_, ?_, ?_⟩ <;> decide

/-- C4 (amended): for IMAGE fetches, when a maximum file size is
configured and the payload exceeds it, `_download_image` raises the
oversize exception immediately, that exception is classified permanent,
and the Retry Engine invokes the operation exactly once with no sleep
(no further attempts).  Video fetches do not enforce the limit (see the
counterexample). -/
theorem image_oversize_no_retry (payload : List Nat)
    (maxFileSizeBytes : Nat) (file_name extension : List Char)
    (decodeResult : Except PyExc (List Nat)) (httpExc uploadExc : PyExc)
    (uploadOk : Bool) (maxR : Nat) (base mult : ℚ)
    (hmax : 0 < maxFileSizeBytes)
    (hover : maxFileSizeBytes < payload.length) (hR : 0 < maxR) :
    download_image_attempt 200 payload maxFileSizeBytes file_name extension
        decodeResult httpExc uploadExc uploadOk =
      .error (oversize_exc payload.length maxFileSizeBytes) ∧
    is_transient_error (oversize_exc payload.length maxFileSizeBytes)
      = false ∧
    retry_with_backoff
        (fun _ => download_image_attempt 200 payload maxFileSizeBytes
          file_name extension decodeResult httpExc uploadExc uploadOk)
        is_transient_error maxR base mult =
      ⟨.raised (oversize_exc payload.length maxFileSizeBytes), 1, []⟩ := by
  have hbody : download_image_attempt 200 payload maxFileSizeBytes file_name
      extension decodeResult httpExc uploadExc uploadOk =
      .error (oversize_exc payload.length maxFileSizeBytes) := by
    simp [download_image_attempt, hmax, hover]
  have hperm := oversize_permanent payload.length maxFileSizeBytes
  refine ⟨hbody, hperm, ?_⟩
  have h := retryLoop_perm
    (fun _ => download_image_attempt 200 payload maxFileSizeBytes file_name
      extension decodeResult httpExc uploadExc uploadOk)
    is_transient_error base mult 0 0 maxR hR
    (fun j hj => absurd hj (by omega))
    (oversize_exc payload.length maxFileSizeBytes) hbody hperm
  rw [retry_with_backoff, h]
  simp

/-- Witness for C4 (amended): a 3-byte payload against a 2-byte limit,
with retry bound 3. -/
theorem image_oversize_no_retry_witness :
    download_image_attempt 200 [0, 0, 0] 2 ['a'] ['p', 'n', 'g']
        (.error ⟨[], [], none⟩) ⟨[], [], none⟩ ⟨[], [], none⟩ true =
      .error (oversize_exc 3 2) ∧
    is_transient_error (oversize_exc 3 2) = false ∧
    retry_with_backoff
        (fun _ => download_image_attempt 200 [0, 0, 0] 2 ['a'] ['p', 'n', 'g']
          (.error ⟨[], [], none⟩) ⟨[], [], none⟩ ⟨[], [], none⟩ true)
        is_transient_error 3 1 RETRY_BACKOFF_MULTIPLIER =
      ⟨.raised (oversize_exc 3 2), 1, []⟩ := by
  have h := image_oversize_no_retry [0, 0, 0] 2 ['a'] ['p', 'n', 'g']
    (.error ⟨[], [], none⟩) ⟨[], [], none⟩ ⟨[], [], none⟩ true 3 1
    RETRY_BACKOFF_MULTIPLIER (by decide) (by decide) (by decide)
  simpa using h

/-- C7: whenever the decode/re-encode step fails, `convert_to_jpeg`
returns exactly the original bytes, file name and extension, and raises
nothing (the embedded function is total and the exception is swallowed),
so a conversion failure never aborts the subsequent upload. -/
theorem convert_failure_fallback (image_data : List Nat)
    (file_name extension : List Char) (e : PyExc) :
    convert_to_jpeg image_data file_name extension (.error e) =
      (image_data, file_name, extension) := rfl

/-- C8 counterexample: a successful conversion of `photo.heif` returns
extension `jpeg` but the file name `photo.heif` UNCHANGED: the code only
replaces the literal `"heic"` in the name, so the old extension token
`heif` is not replaced by the new one as the claim requires. -/
theorem convert_heif_name_counterexample :
    convert_to_jpeg [0] "photo.heif".toList "heif".toList (.ok [1]) =
      ([1], "photo.heif".toList, "jpeg".toList) ∧
    (convert_to_jpeg [0] "photo.heif".toList "heif".toList (.ok [1])).2.1 ≠
      "photo.jpeg".toList := by
  refine ⟨?_, ?_⟩ <;> decide

/-- C8 (amended): a successful conversion returns extension `jpeg` and the
input name with every occurrence of the literal `"heic"` replaced by
`"jpeg"` (so a `.heif` name keeps its token); in particular downloading
`photo.heic` uploads with name `photo.jpeg` — containing `jpeg` and not
`heic` — and extension `jpeg`. -/
theorem convert_success_renames (image_data newData : List Nat)
    (file_name extension : List Char) (httpExc uploadExc : PyExc) :
    convert_to_jpeg image_data file_name extension (.ok newData) =
      (newData, replace_heic file_name, "jpeg".toList) ∧
    replace_heic "photo.heic".toList = "photo.jpeg".toList ∧
    download_image_attempt 200 [0] 0 "photo.heic".toList "heic".toList
        (.ok newData) httpExc uploadExc true =
      .ok ("photo.jpeg".toList, "jpeg".toList) ∧
    hasSub "jpeg".toList "photo.jpeg".toList = true ∧
    hasSub "heic".toList "photo.jpeg".toList = false := by
  refine ⟨rfl, by decide, ?_, by decide, by decide⟩
  simp [download_image_attempt, convert_to_jpeg]
  decide

/-- C5 counterexample: `"a..b"` contains one dot-run of length 2 and the
sanitizer yields `"a_b"` (a single underscore), not `"a__b"` (underscores
of equal count to the run length) as the claim requires. -/
theorem sanitize_dot_run_counterexample :
    sanitize_folder_name "a..b".toList = "a_b".toList ∧
    sanitize_folder_name "a..b".toList ≠ "a__b".toList := by
  exact ⟨by decide, by decide⟩

/-- C5 (amended): for every input the sanitizer's output contains no `".."`
substring (no two adjacent dots), and the path-traversal substitution
replaces each run of `k ≥ 2` dots (not followed by a further dot) by
exactly ONE underscore, not k underscores. -/
theorem sanitize_collapses_dot_runs (l rest : List Char) (k : Nat)
    (hk : 2 ≤ k) (hrest : rest.head? ≠ some '.') :
    noDD (sanitize_folder_name l) = true ∧
    subTraversal (List.replicate k '.' ++ rest) = '_' :: subTraversal rest :=
  ⟨noDD_sanitize l, subTraversal_run k rest hk hrest⟩

/-- Witness for C5 (amended): the input `"a..b"` and a run of three dots
before `"b"`. -/
theorem sanitize_collapses_dot_runs_witness :
    noDD (sanitize_folder_name "a..b".toList) = true ∧
    subTraversal (List.replicate 3 '.' ++ "b".toList) =
      '_' :: subTraversal "b".toList :=
  sanitize_collapses_dot_runs "a..b".toList "b".toList 3 (by decide)
    (by decide)

/-- C6 counterexample: the retry bound on the wrapped remote calls is
`MAX_RETRIES`, whose default is 3, not 5: a remote call failing
transiently on every attempt is invoked exactly 3 times — not 5 — before
the last error surfaces. -/
theorem retry_bound_counterexample :
    MAX_RETRIES = 3 ∧
    (retry_with_backoff (fun _ => (.error true : Except Bool Nat))
        (fun b => b) MAX_RETRIES 1 RETRY_BACKOFF_MULTIPLIER).invocations
      = 3 ∧
    (retry_with_backoff (fun _ => (.error true : Except Bool Nat))
        (fun b => b) MAX_RETRIES 1 RETRY_BACKOFF_MULTIPLIER).invocations
      ≠ 5 := by
  refine ⟨rfl, ?_, ?_⟩ <;> decide

/-- C6 (amended): the remote folder query and the upload create-file call
each run under `retry_with_backoff` with bound `MAX_RETRIES` (default 3):
for every operation failing transiently on each of the 3 attempts, the
wrapped call is invoked exactly 3 times before the last error surfaces,
with 2 intervening sleeps. -/
theorem retry_bound_default (ε α : Type) (op : Nat → Except ε α)
    (tr : ε → Bool) (base mult : ℚ) (err : Nat → ε)
    (hfail : ∀ j, j < MAX_RETRIES →
      op j = .error (err j) ∧ tr (err j) = true) :
    retry_with_backoff op tr MAX_RETRIES base mult =
      ⟨.raised (err 2), 3, [base * mult ^ 0, base * mult ^ 1]⟩ := by
  have h := retryLoop_exhaust op tr base mult err 0 MAX_RETRIES (by decide)
    (fun j hj => by simpa using hfail j hj)
  rw [retry_with_backoff, h]
  norm_num [MAX_RETRIES, List.range_succ]

/-- Witness for C6 (amended): an always-transiently-failing operation at
the default configuration. -/
theorem retry_bound_default_witness :
    retry_with_backoff (fun _ => (.error true : Except Bool Nat))
        (fun b => b) MAX_RETRIES 1 RETRY_BACKOFF_MULTIPLIER =
      ⟨.raised true, 3, [1 * RETRY_BACKOFF_MULTIPLIER ^ 0,
        1 * RETRY_BACKOFF_MULTIPLIER ^ 1]⟩ :=
  retry_bound_default Bool Nat _ _ 1 RETRY_BACKOFF_MULTIPLIER (fun _ => true)
    (fun _ _ => ⟨rfl, rfl⟩)

theorem cacheLookup_insert (c : List (List Char × List Char × Nat))
    (n fid : List Char) (t : Nat) :
    cacheLookup (cacheInsert c n fid t) n = some (fid, t) := by
  simp [cacheInsert, cacheLookup]

theorem cacheLookup_erase (c : List (List Char × List Char × Nat))
    (n : List Char) : cacheLookup (cacheErase c n) n = none := by
  induction c with
  | nil => rfl
  | cons p rest ih =>
    obtain ⟨k, v⟩ := p
    by_cases h : k = n
    · simpa [cacheErase, h] using ih
    · simpa [cacheErase, cacheLookup, h] using ih

theorem check_folder_query_queries (svc : Bool)
    (search : Except PyExc (List (List Char))) (now : Nat)
    (c : List (List Char × List Char × Nat)) (nm : List Char)
    (h : svc = true) :
    (check_folder_query svc search now c nm).remoteQueries = 1 := by
  subst h
  cases search with
  | error e => rfl
  | ok l => cases l <;> rfl

theorem check_folder_query_cases (svc : Bool)
    (search : Except PyExc (List (List Char))) (now : Nat)
    (c : List (List Char × List Char × Nat)) (nm : List Char) :
    ((check_folder_query svc search now c nm).result = none ∧
      (check_folder_query svc search now c nm).cache = c) ∨
    ∃ fid rest, svc = true ∧ search = .ok (fid :: rest) ∧
      check_folder_query svc search now c nm =
        ⟨some fid, cacheInsert c nm fid now, 1⟩ := by
  cases svc with
  | false => exact Or.inl ⟨rfl, rfl⟩
  | true =>
    cases search with
    | error e => exact Or.inl ⟨rfl, rfl⟩
    | ok l =>
      cases l with
      | nil => exact Or.inl ⟨rfl, rfl⟩
      | cons fid rest => exact Or.inr ⟨fid, rest, rfl, rfl, rfl⟩

/-- C3: (1) a resolve of a name with no cache entry and an authenticated
service issues exactly one remote query; (2) if that query hits, the id is
cached under the current time; (3) a second resolve of the same name
within the TTL issues zero remote queries, returns the same id and leaves
the cache untouched, whatever the backend would have answered; (4) a
resolve finding an expired entry issues exactly one remote query and, on a
hit, overwrites the entry with a strictly newer timestamp; (5) a cached id
is never returned from an entry whose age has reached the TTL. -/
theorem folder_cache_ttl (svc : Bool)
    (search search2 : Except PyExc (List (List Char))) (now now2 t : Nat)
    (cache : List (List Char × List Char × Nat)) (raw fid : List Char) :
    (cacheLookup cache (sanitize_folder_name raw) = none → svc = true →
      (check_folder_exists svc search now cache raw).remoteQueries = 1) ∧
    (∀ rest, cacheLookup cache (sanitize_folder_name raw) = none →
      svc = true → search = .ok (fid :: rest) →
      check_folder_exists svc search now cache raw =
        ⟨some fid, cacheInsert cache (sanitize_folder_name raw) fid now,
          1⟩) ∧
    (∀ rest, cacheLookup cache (sanitize_folder_name raw) = none →
      svc = true → search = .ok (fid :: rest) → now2 - now < CACHE_TTL →
      check_folder_exists svc search2 now2
          (check_folder_exists svc search now cache raw).cache raw =
        ⟨some fid,
          (check_folder_exists svc search now cache raw).cache, 0⟩) ∧
    (cacheLookup cache (sanitize_folder_name raw) = some (fid, t) →
      ¬ now - t < CACHE_TTL → svc = true →
      (check_folder_exists svc search now cache raw).remoteQueries = 1 ∧
      (∀ fid2 rest, search = .ok (fid2 :: rest) →
        check_folder_exists svc search now cache raw =
          ⟨some fid2,
            cacheInsert (cacheErase cache (sanitize_folder_name raw))
              (sanitize_folder_name raw) fid2 now, 1⟩ ∧ t < now)) ∧
    (∀ fid3, (check_folder_exists svc search now cache raw).result =
        some fid3 →
      (check_folder_exists svc search now cache raw).remoteQueries = 0 →
      ∃ t3, cacheLookup cache (sanitize_folder_name raw) = some (fid3, t3) ∧
        now - t3 < CACHE_TTL) := by
  refine ⟨?_, ?_, ?_, ?_, ?_⟩
  · intro hnone hsvc
    rw [check_folder_exists, hnone]
    exact check_folder_query_queries svc search now cache _ hsvc
  · intro rest hnone hsvc hsearch
    subst hsvc
    subst hsearch
    rw [check_folder_exists, hnone]
    rfl
  · intro rest hnone hsvc hsearch httl
    have h1 : check_folder_exists svc search now cache raw =
        ⟨some fid, cacheInsert cache (sanitize_folder_name raw) fid now, 1⟩ := by
      subst hsvc
      subst hsearch
      rw [check_folder_exists, hnone]
      rfl
    rw [h1]
    simp only [check_folder_exists, cacheLookup_insert, if_pos httl]
  · intro hsome httl hsvc
    have hnow : t < now := by
      have h1 : CACHE_TTL ≤ now - t := by omega
      have h0 : 0 < CACHE_TTL := by decide
      omega
    constructor
    · simp only [check_folder_exists, hsome, if_neg httl]
      exact check_folder_query_queries svc search now _ _ hsvc
    · intro fid2 rest hsearch
      subst hsvc
      subst hsearch
      refine ⟨?_, hnow⟩
      simp only [check_folder_exists, hsome, if_neg httl]
      rfl
  · intro fid3 hres hq
    rcases hcl : cacheLookup cache (sanitize_folder_name raw)
      with _ | ⟨fid', t'⟩
    · simp only [check_folder_exists, hcl] at hres hq
      rcases check_folder_query_cases svc search now cache
        (sanitize_folder_name raw) with ⟨h1, _⟩ | ⟨f, r, _, _, heq⟩
      · rw [h1] at hres
        exact absurd hres (by simp)
      · rw [heq] at hq
        exact absurd hq (by simp)
    · simp only [check_folder_exists, hcl] at hres hq
      by_cases httl : now - t' < CACHE_TTL
      · rw [if_pos httl] at hres
        have heq3 : fid' = fid3 := by
          simpa using hres
        subst heq3
        exact ⟨t', rfl, httl⟩
      · rw [if_neg httl] at hres hq
        rcases check_folder_query_cases svc search now
          (cacheErase cache (sanitize_folder_name raw))
          (sanitize_folder_name raw) with ⟨h1, _⟩ | ⟨f, r, _, _, heq⟩
        · rw [h1] at hres
          exact absurd hres (by simp)
        · rw [heq] at hq
          exact absurd hq (by simp)

/-- Witness for C3: resolving `"a"` against an empty cache at time 0 with
a backend hit `"idx"`, then again at time 10 (inside the TTL) with a
backend that would now error; then the expiry path at time 5000. -/
theorem folder_cache_ttl_witness :
    ResolveResult.remoteQueries
        (check_folder_exists true (.ok [['i', 'd', 'x']]) 0 [] ['a']) = 1 ∧
    check_folder_exists true (.ok [['i', 'd', 'x']]) 0 [] ['a'] =
      ⟨some ['i', 'd', 'x'],
        cacheInsert [] (sanitize_folder_name ['a']) ['i', 'd', 'x'] 0, 1⟩ ∧
    check_folder_exists true (.error ⟨[], [], none⟩) 10
        (check_folder_exists true (.ok [['i', 'd', 'x']]) 0 [] ['a']).cache
        ['a'] =
      ⟨some ['i', 'd', 'x'],
        (check_folder_exists true (.ok [['i', 'd', 'x']]) 0 [] ['a']).cache,
        0⟩ ∧
    (check_folder_exists true (.ok [['i', 'd', '2']]) 5000
        [(sanitize_folder_name ['a'], ['i', 'd', 'x'], 0)] ['a'] =
      ⟨some ['i', 'd', '2'],
        cacheInsert
          (cacheErase [(sanitize_folder_name ['a'], ['i', 'd', 'x'], 0)]
            (sanitize_folder_name ['a']))
          (sanitize_folder_name ['a']) ['i', 'd', '2'] 5000, 1⟩ ∧
      (0 : Nat) < 5000) := by
  refine ⟨?_, ?_, ?_, ?_⟩
  · exact (folder_cache_ttl true (.ok [['i', 'd', 'x']]) (.ok [])
      0 0 0 [] ['a'] ['i', 'd', 'x']).1 (by decide) rfl
  · exact (folder_cache_ttl true (.ok [['i', 'd', 'x']]) (.ok [])
      0 0 0 [] ['a'] ['i', 'd', 'x']).2.1 [] (by decide) rfl rfl
  · exact (folder_cache_ttl true (.ok [['i', 'd', 'x']])
      (.error ⟨[], [], none⟩) 0 10 0 [] ['a'] ['i', 'd', 'x']).2.2.1 []
      (by decide) rfl rfl (by decide)
  · exact ((folder_cache_ttl true (.ok [['i', 'd', '2']]) (.ok [])
      5000 0 0 [(sanitize_folder_name ['a'], ['i', 'd', 'x'], 0)] ['a']
      ['i', 'd', 'x']).2.2.2.1 (by decide) (by decide) rfl).2
      ['i', 'd', '2'] [] rfl

/-- C10: `check_folder_exists` and `create_folder` never propagate an
exception: every backend outcome (raised error, exhausted retries modelled
as a raised last error, missing authenticated service, or no matching
folder) maps to a returned id or `None`.  A failing outcome never inserts
a cache entry: if resolution returns `None` the sanitized name is absent
from the resulting cache, and if creation returns `None` the cache is
unchanged; an id is returned only together with a matching cache entry
(resolution) or exactly the one inserted entry (creation). -/
theorem folder_resolution_total (svc : Bool)
    (search : Except PyExc (List (List Char)))
    (createResult : Except PyExc (Option (List Char))) (now : Nat)
    (cache : List (List Char × List Char × Nat)) (raw : List Char) :
    ((check_folder_exists svc search now cache raw).result = none →
      cacheLookup (check_folder_exists svc search now cache raw).cache
        (sanitize_folder_name raw) = none) ∧
    (∀ fid, (check_folder_exists svc search now cache raw).result =
        some fid →
      ∃ t, cacheLookup (check_folder_exists svc search now cache raw).cache
        (sanitize_folder_name raw) = some (fid, t)) ∧
    ((create_folder svc createResult now cache raw).1 = none →
      (create_folder svc createResult now cache raw).2 = cache) ∧
    (∀ fid, (create_folder svc createResult now cache raw).1 = some fid →
      (create_folder svc createResult now cache raw).2 =
        cacheInsert cache (sanitize_folder_name raw) fid now) := by
  have hquery : ∀ c0, (check_folder_query svc search now c0
        (sanitize_folder_name raw)).result = none →
      (check_folder_query svc search now c0
        (sanitize_folder_name raw)).cache = c0 := by
    intro c0 hres
    rcases check_folder_query_cases svc search now c0
      (sanitize_folder_name raw) with ⟨_, h2⟩ | ⟨f, r, _, _, heq⟩
    · exact h2
    · rw [heq] at hres
      exact absurd hres (by simp)
  refine ⟨?_, ?_, ?_, ?_⟩
  · intro hres
    rcases hcl : cacheLookup cache (sanitize_folder_name raw)
      with _ | ⟨fid', t'⟩
    · simp only [check_folder_exists, hcl] at hres ⊢
      rw [hquery cache hres]
      exact hcl
    · simp only [check_folder_exists, hcl] at hres ⊢
      by_cases httl : now - t' < CACHE_TTL
      · rw [if_pos httl] at hres
        exact absurd hres (by simp)
      · rw [if_neg httl] at hres ⊢
        rw [hquery _ hres]
        exact cacheLookup_erase cache (sanitize_folder_name raw)
  · intro fid hres
    rcases hcl : cacheLookup cache (sanitize_folder_name raw)
      with _ | ⟨fid', t'⟩
    · simp only [check_folder_exists, hcl] at hres ⊢
      rcases check_folder_query_cases svc search now cache
        (sanitize_folder_name raw) with ⟨h1, _⟩ | ⟨f, r, _, _, heq⟩
      · rw [h1] at hres
        exact absurd hres (by simp)
      · rw [heq] at hres ⊢
        have hf : f = fid := by simpa using hres
        subst hf
        exact ⟨now, by rw [cacheLookup_insert]⟩
    · simp only [check_folder_exists, hcl] at hres ⊢
      by_cases httl : now - t' < CACHE_TTL
      · rw [if_pos httl] at hres ⊢
        have hf : fid' = fid := by simpa using hres
        subst hf
        exact ⟨t', hcl⟩
      · rw [if_neg httl] at hres ⊢
        rcases check_folder_query_cases svc search now
          (cacheErase cache (sanitize_folder_name raw))
          (sanitize_folder_name raw) with ⟨h1, _⟩ | ⟨f, r, _, _, heq⟩
        · rw [h1] at hres
          exact absurd hres (by simp)
        · rw [heq] at hres ⊢
          have hf : f = fid := by simpa using hres
          subst hf
          exact ⟨now, by rw [cacheLookup_insert]⟩
  · intro hres
    cases svc with
    | false => rfl
    | true =>
      cases createResult with
      | error e => rfl
      | ok o =>
        cases o with
        | none => rfl
        | some fid =>
          exact absurd hres (by simp [create_folder])
  · intro fid hres
    cases svc with
    | false => exact absurd hres (by simp [create_folder])
    | true =>
      cases createResult with
      | error e => exact absurd hres (by simp [create_folder])
      | ok o =>
        cases o with
        | none => exact absurd hres (by simp [create_folder])
        | some fid2 =>
          have : fid2 = fid := by simpa [create_folder] using hres
          subst this
          rfl

/-- Witness for C10: a raised backend error on resolution leaves the empty
cache without the entry; a successful creation inserts exactly one
entry. -/
theorem folder_resolution_total_witness :
    cacheLookup
        (check_folder_exists true (.error ⟨[], [], none⟩) 0 [] ['a']).cache
        (sanitize_folder_name ['a']) = none ∧
    (create_folder true (.ok (some ['i'])) 5 [] ['a']).2 =
      cacheInsert [] (sanitize_folder_name ['a']) ['i'] 5 := by
  constructor
  · exact (folder_resolution_total true (.error ⟨[], [], none⟩)
      (.ok (some ['i'])) 0 [] ['a']).1 (by decide)
  · exact (folder_resolution_total true (.error ⟨[], [], none⟩)
      (.ok (some ['i'])) 5 [] ['a']).2.2.2 ['i'] (by decide)

theorem map_id_of (f : Char → Char) (l : List Char) (h : ∀ c ∈ l, f c = c) :
    l.map f = l := by
  induction l with
  | nil => rfl
  | cons a t ih =>
    rw [List.map_cons, h a (List.mem_cons_self a t),
      ih (fun c hc => h c (List.mem_cons_of_mem a hc))]

/-- Characters of the scanner output come from the input, or are the
underscore or dot it emits itself. -/
theorem subTravGo_chars (l : List Char) :
    ∀ st c, c ∈ subTravGo st l → c ∈ l ∨ c = '_' ∨ c = '.' := by
  induction l with
  | nil =>
    intro st c h
    match st with
    | 0 => simp [subTravGo] at h
    | 1 =>
      simp only [subTravGo, List.mem_singleton] at h
      exact Or.inr (Or.inr h)
    | _ + 2 =>
      simp only [subTravGo, List.mem_singleton] at h
      exact Or.inr (Or.inl h)
  | cons a rest ih =>
    have hlift : ∀ c, c ∈ rest ∨ c = '_' ∨ c = '.' →
        c ∈ a :: rest ∨ c = '_' ∨ c = '.' := by
      intro c hc
      rcases hc with hc | hc
      · exact Or.inl (List.mem_cons_of_mem a hc)
      · exact Or.inr hc
    intro st c h
    match st with
    | 0 =>
      by_cases ha : a = '.'
      · rw [subTravGo, if_pos ha] at h
        exact hlift c (ih 1 c h)
      · rw [subTravGo, if_neg ha] at h
        rcases List.mem_cons.mp h with hc | hc
        · exact Or.inl (hc ▸ List.mem_cons_self a rest)
        · exact hlift c (ih 0 c hc)
    | 1 =>
      by_cases ha : a = '.'
      · rw [subTravGo, if_pos ha] at h
        exact hlift c (ih 2 c h)
      · rw [subTravGo, if_neg ha] at h
        rcases List.mem_cons.mp h with hc | hc
        · exact Or.inr (Or.inr hc)
        · rcases List.mem_cons.mp hc with hc2 | hc2
          · exact Or.inl (hc2 ▸ List.mem_cons_self a rest)
          · exact hlift c (ih 0 c hc2)
    | n + 2 =>
      by_cases ha : a = '.'
      · rw [subTravGo, if_pos ha] at h
        exact hlift c (ih 2 c h)
      · rw [subTravGo, if_neg ha] at h
        rcases List.mem_cons.mp h with hc | hc
        · exact Or.inr (Or.inl hc)
        · rcases List.mem_cons.mp hc with hc2 | hc2
          · exact Or.inl (hc2 ▸ List.mem_cons_self a rest)
          · exact hlift c (ih 0 c hc2)

theorem subBadChars_no_bad (l : List Char) :
    ∀ c ∈ subBadChars l, badChar c = false := by
  intro c hc
  rw [subBadChars] at hc
  obtain ⟨a, _, ha⟩ := List.mem_map.mp hc
  by_cases hb : badChar a
  · rw [if_pos hb] at ha
    rw [← ha]
    decide
  · rw [if_neg hb] at ha
    rw [← ha]
    exact Bool.not_eq_true _ ▸ (by simpa using hb)

/-- The scanner is the identity on strings with no two adjacent dots. -/
theorem subTravGo_zero_of_noDD :
    ∀ n l, List.length l ≤ n → noDD l = true → subTravGo 0 l = l := by
  intro n
  induction n with
  | zero =>
    intro l hl _
    cases l with
    | nil => rfl
    | cons a t => simp at hl
  | succ n ih =>
    intro l hl hdd
    cases l with
    | nil => rfl
    | cons c rest =>
      by_cases hc : c = '.'
      · subst hc
        rw [subTravGo_zero_dot]
        cases rest with
        | nil => rfl
        | cons d r =>
          have hd : d ≠ '.' := by
            simp only [noDD, Bool.and_eq_true, Bool.not_eq_true',
              Bool.and_eq_false_iff] at hdd
            rcases hdd.1 with h | h
            · simp at h
            · simpa using h
          rw [subTravGo, if_neg hd]
          have hr := ih r (by simp at hl ⊢; omega)
            (noDD_of_cons d r (noDD_of_cons '.' _ hdd))
          rw [hr]
      · rw [subTravGo, if_neg hc]
        rw [ih rest (by simp at hl ⊢; omega) (noDD_of_cons c rest hdd)]

theorem subTraversal_of_noDD (l : List Char) (h : noDD l = true) :
    subTraversal l = l :=
  subTravGo_zero_of_noDD l.length l le_rfl h

/-- The first element surviving `dropWhile` fails the predicate. -/
theorem dropWhile_head_not (p : Char → Bool) :
    ∀ (l : List Char) c t, l.dropWhile p = c :: t → p c = false := by
  intro l
  induction l with
  | nil =>
    intro c t h
    simp [List.dropWhile] at h
  | cons a rest ih =>
    intro c t h
    rw [List.dropWhile] at h
    cases hp : p a with
    | true =>
      rw [hp] at h
      exact ih c t h
    | false =>
      rw [hp] at h
      obtain ⟨rfl, _⟩ : a = c ∧ rest = t := by
        constructor <;> injection h
      exact hp

/-- The stripped string is a prefix of the front-stripped string. -/
theorem stripDotsSpaces_isPre (l : List Char) :
    stripDotsSpaces l <+: l.dropWhile stripChar := by
  apply List.reverse_suffix.mp
  simpa [stripDotsSpaces, List.reverse_reverse] using
    (List.dropWhile_suffix stripChar
      (l := (l.dropWhile stripChar).reverse))

theorem isPre_head (l₁ l₂ : List Char) (h : l₁ <+: l₂) (c : Char)
    (hc : l₁.head? = some c) : l₂.head? = some c := by
  obtain ⟨s, rfl⟩ := h
  cases l₁ with
  | nil => simp at hc
  | cons a t => simpa using hc

theorem head_take_255 (l : List Char) (c : Char)
    (h : (l.take 255).head? = some c) : l.head? = some c := by
  cases l with
  | nil => simp at h
  | cons a t => simpa using h

/-- Stripping is the identity when neither end holds a dot or space. -/
theorem stripDotsSpaces_eq_self (l : List Char)
    (h1 : ∀ c, l.head? = some c → stripChar c = false)
    (h2 : ∀ c, l.getLast? = some c → stripChar c = false) :
    stripDotsSpaces l = l := by
  have hd : l.dropWhile stripChar = l := by
    cases l with
    | nil => rfl
    | cons a t =>
      have ha := h1 a rfl
      rw [List.dropWhile, ha]
  rw [stripDotsSpaces, hd]
  have hd2 : l.reverse.dropWhile stripChar = l.reverse := by
    cases hr : l.reverse with
    | nil => rfl
    | cons a t =>
      have ha : l.getLast? = some a := by
        rw [← List.head?_reverse, hr]
        rfl
      have ha2 := h2 a ha
      rw [List.dropWhile, ha2]
  rw [hd2, List.reverse_reverse]

/-- Structural facts about every sanitizer output: nonempty, at most 255
characters, head not strippable, and free of forbidden characters. -/
theorem sanitize_props (l : List Char) :
    sanitize_folder_name l ≠ [] ∧
    (sanitize_folder_name l).length ≤ 255 ∧
    (∀ c, (sanitize_folder_name l).head? = some c → stripChar c = false) ∧
    (∀ c ∈ sanitize_folder_name l, badChar c = false) := by
  have hunnamed : unnamedName ≠ [] ∧ unnamedName.length ≤ 255 ∧
      (∀ c, unnamedName.head? = some c → stripChar c = false) ∧
      (∀ c ∈ unnamedName, badChar c = false) := by
    refine ⟨by decide, by decide, ?_, by decide⟩
    intro c hc
    have hcu : 'u' = c := by simpa [unnamedName] using hc
    subst hcu
    decide
  rw [sanitize_folder_name]
  by_cases h : l = []
  · rw [if_pos h]
    exact hunnamed
  · rw [if_neg h]
    by_cases h2 :
        (stripDotsSpaces (subTraversal (subBadChars l))).take 255 = []
    · rw [if_pos h2]
      exact hunnamed
    · rw [if_neg h2]
      refine ⟨h2, ?_, ?_, ?_⟩
      · exact le_trans (List.length_take_le 255 _) le_rfl
      · intro c hc
        have hc2 := head_take_255 _ _ hc
        have hc3 := isPre_head _ _ (stripDotsSpaces_isPre _) c hc2
        obtain ⟨a, t, ht⟩ : ∃ a t,
            (subTraversal (subBadChars l)).dropWhile stripChar = a :: t := by
          cases hdw : (subTraversal (subBadChars l)).dropWhile stripChar with
          | nil => rw [hdw] at hc3; simp at hc3
          | cons a t => exact ⟨a, t, rfl⟩
        rw [ht] at hc3
        have hca : a = c := by simpa using hc3
        subst hca
        exact dropWhile_head_not stripChar _ a t ht
      · intro c hc
        have hinf := sanitize_contiguous l
        have hmem : c ∈ subTraversal (subBadChars l) := hinf.subset hc
        rcases subTravGo_chars (subBadChars l) 0 c hmem with hm | hm | hm
        · exact subBadChars_no_bad l c hm
        · subst hm; decide
        · subst hm; decide

/-- C9: `sanitize_folder_name` is idempotent on every input whose
sanitized form does not end in a character a second pass would strip (a
dot or a space, endings which can only arise through the 255-character
truncation): a second pass leaves such output unchanged. -/
theorem sanitize_idempotent (x : List Char)
    (h1 : (sanitize_folder_name x).getLast? ≠ some '.')
    (h2 : (sanitize_folder_name x).getLast? ≠ some ' ') :
    sanitize_folder_name (sanitize_folder_name x) =
      sanitize_folder_name x := by
  obtain ⟨hne, hlen, hhead, hbad⟩ := sanitize_props x
  have hlast : ∀ c, (sanitize_folder_name x).getLast? = some c →
      stripChar c = false := by
    intro c hc
    have hc1 : c ≠ '.' := by
      rintro rfl
      exact h1 hc
    have hc2 : c ≠ ' ' := by
      rintro rfl
      exact h2 hc
    simp [stripChar, hc1, hc2]
  have hnodd : noDD (sanitize_folder_name x) = true := noDD_sanitize x
  have hsubbad : subBadChars (sanitize_folder_name x) =
      sanitize_folder_name x := by
    rw [subBadChars]
    apply map_id_of
    intro c hc
    rw [if_neg (by simp [hbad c hc])]
  have hsubtrav : subTraversal (sanitize_folder_name x) =
      sanitize_folder_name x :=
    subTraversal_of_noDD _ hnodd
  have hstrip : stripDotsSpaces (sanitize_folder_name x) =
      sanitize_folder_name x :=
    stripDotsSpaces_eq_self _ hhead hlast
  have htake : (sanitize_folder_name x).take 255 = sanitize_folder_name x :=
    List.take_of_length_le hlen
  rw [sanitize_folder_name, if_neg hne, hsubbad, hsubtrav, hstrip, htake,
    if_neg hne]

/-- Witness for C9: the input `"abc"`, whose sanitized form `"abc"` ends
in `'c'`. -/
theorem sanitize_idempotent_witness :
    (sanitize_folder_name "abc".toList).getLast? ≠ some '.' ∧
    (sanitize_folder_name "abc".toList).getLast? ≠ some ' ' ∧
    sanitize_folder_name (sanitize_folder_name "abc".toList) =
      sanitize_folder_name "abc".toList :=
  ⟨by decide, by decide,
    sanitize_idempotent "abc".toList (by decide) (by decide)⟩

end PhotoBot

